import Mathlib

/-!
Verification development for the Cert-Agent certificate-ingestion pipeline
(src/main.py).  The Python source is shallowly embedded: every definition
below is translated from a concrete piece of the source file (line numbers
given in the doc comments).  Python strings are modelled as Lean `String`
via their character lists; the handful of regular expressions in the source
(`\d+`, `[0-9]+(?:/[0-9]+)?`, `[0-9]+\.[0-9]+`, `dokki[-\d]+`,
`(fax|phone|id|\d)`) are embedded as explicit leftmost-match scanners,
which coincide with the regex semantics because none of these patterns
needs backtracking.
-/

namespace CertAgent

/-- Lower-casing of a string, character by character (Python `str.lower`
on the ASCII text handled by this pipeline). -/
def lowerS (s : String) : String := String.mk (s.data.map Char.toLower)

/-- Boolean prefix test on character lists. -/
def isPrefixCh : List Char → List Char → Bool
  | [], _ => true
  | _ :: _, [] => false
  | p :: ps, c :: cs => p == c && isPrefixCh ps cs

/-- Boolean substring test on character lists: does `s` contain `pat`
as a contiguous substring?  Models Python `pat in s`. -/
def containsCh : List Char → List Char → Bool
  | [], pat => pat.isEmpty
  | c :: cs, pat => isPrefixCh pat (c :: cs) || containsCh cs pat

/-- Python substring test `pat in s` on strings. -/
def containsSub (s pat : String) : Bool := containsCh s.data pat.data

/-- Strip leading and trailing whitespace (Python `str.strip`). -/
def trimCh (l : List Char) : List Char :=
  ((l.dropWhile Char.isWhitespace).reverse.dropWhile Char.isWhitespace).reverse

/-- Python `str.strip` on strings. -/
def trimS (s : String) : String := String.mk (trimCh s.data)

/-- Python `str.splitlines` for newline-separated text: split on the
character \x27\n\x27.  (For text with a trailing newline this keeps a final
empty line which Python drops; every consumer in the source ignores blank
and non-matching lines, so the two readings are observationally equal.) -/
def splitLinesAux : List Char → List Char → List String
  | [], acc => [String.mk acc.reverse]
  | c :: cs, acc =>
    if c = '\n' then String.mk acc.reverse :: splitLinesAux cs []
    else splitLinesAux cs (c :: acc)

/-- Python `str.splitlines` (see `splitLinesAux`). -/
def splitLinesS (s : String) : List String := splitLinesAux s.data []

/-- Python `str.replace(pat, sub)`: replace every occurrence, scanning
left to right without overlap.  Fuel is the length of the string, which a
step always consumes at least one character of.  Call sites in the source
always pass a non-empty literal `pat`; for an empty `pat` this embedding
returns the string unchanged. -/
def replaceChAux : Nat → List Char → List Char → List Char → List Char
  | 0, s, _, _ => s
  | _ + 1, [], _, _ => []
  | fuel + 1, c :: cs, pat, sub =>
    if pat.isEmpty then c :: cs
    else if isPrefixCh pat (c :: cs) then
      sub ++ replaceChAux fuel (List.drop (pat.length - 1) cs) pat sub
    else c :: replaceChAux fuel cs pat sub

/-- Python `s.replace(pat, sub)` on strings. -/
def replaceAllS (s pat sub : String) : String :=
  String.mk (replaceChAux s.data.length s.data pat.data sub.data)

/-- Python `str.title` for ASCII text: an alphabetic character is
upper-cased when the previous character is not alphabetic and lower-cased
otherwise. -/
def titleAux : List Char → Bool → List Char
  | [], _ => []
  | c :: cs, prevAlpha =>
    (if c.isAlpha then (if prevAlpha then c.toLower else c.toUpper) else c)
      :: titleAux cs c.isAlpha

/-- Python `str.title` on strings. -/
def titleCaseS (s : String) : String := String.mk (titleAux s.data false)

/-- `re.findall(r"\d+", s)`: the maximal digit runs of `s`, in order.
The accumulator holds the current run reversed. -/
def digitRunsAux : List Char → List Char → List String
  | [], cur => if cur.isEmpty then [] else [String.mk cur.reverse]
  | c :: cs, cur =>
    if c.isDigit then digitRunsAux cs (c :: cur)
    else if cur.isEmpty then digitRunsAux cs []
    else String.mk cur.reverse :: digitRunsAux cs []

/-- `re.findall(r"\d+", s)` on strings (src/main.py lines 73 and 326). -/
def digitRunsS (s : String) : List String := digitRunsAux s.data []

/-- Generic leftmost-match scanner: try the matcher at every suffix from
left to right, as `re.search` tries every start position. -/
def firstMatchCh (f : List Char → Option (List Char)) : List Char → Option (List Char)
  | [] => f []
  | c :: cs =>
    match f (c :: cs) with
    | some m => some m
    | none => firstMatchCh f cs

/-- Anchored match of `[0-9]+(?:/[0-9]+)?` (src/main.py line 145): a
maximal digit run, optionally extended by a slash and a second maximal
digit run. -/
def numFracAt (l : List Char) : Option (List Char) :=
  let d1 := l.takeWhile Char.isDigit
  if d1.isEmpty then none
  else
    match l.dropWhile Char.isDigit with
    | '/' :: rest =>
      let d2 := rest.takeWhile Char.isDigit
      if d2.isEmpty then some d1 else some (d1 ++ '/' :: d2)
    | _ => some d1

/-- Anchored match of `[0-9]+\.[0-9]+` (src/main.py line 215): a maximal
digit run, a dot, and a second maximal digit run. -/
def decimalAt (l : List Char) : Option (List Char) :=
  let d1 := l.takeWhile Char.isDigit
  if d1.isEmpty then none
  else
    match l.dropWhile Char.isDigit with
    | '.' :: rest =>
      let d2 := rest.takeWhile Char.isDigit
      if d2.isEmpty then none else some (d1 ++ '.' :: d2)
    | _ => none

/-- Anchored match of `dokki[-\d]+` (src/main.py line 140): the literal
`dokki` followed by at least one digit or hyphen, maximal. -/
def dokkiAt (l : List Char) : Option (List Char) :=
  if isPrefixCh ("dokki").data l then
    let tail := (l.drop 5).takeWhile (fun c => c.isDigit || c == '-')
    if tail.isEmpty then none else some (("dokki").data ++ tail)
  else none

/-- Python `l.split(":", 1)[1]`: everything after the first colon
(src/main.py line 159).  Total: returns the empty list when no colon is
present (the source only calls this on lines known to contain one). -/
def afterColonCh : List Char → List Char
  | [] => []
  | c :: cs => if c = ':' then cs else afterColonCh cs

/-- `re.split(r"(fax|phone|id|\d)", val, flags=re.I)[0]` (src/main.py
line 160): the prefix of `val` before the leftmost case-insensitive
occurrence of `fax`, `phone`, `id`, or a digit. -/
def truncSampleCh : List Char → List Char
  | [] => []
  | c :: cs =>
    let low := (c :: cs).map Char.toLower
    if isPrefixCh ("fax").data low || isPrefixCh ("phone").data low ||
        isPrefixCh ("id").data low || c.isDigit then []
    else c :: truncSampleCh cs

/-- First-occurrence-order deduplication, as `pandas.Series.unique`
(src/main.py line 332).  `seen` accumulates the values already kept. -/
def uniqFirstAux : List String → List String → List String
  | [], _ => []
  | x :: xs, seen =>
    if seen.contains x then uniqFirstAux xs seen
    else x :: uniqFirstAux xs (x :: seen)

/-- `pandas.Series.unique` as a list operation. -/
def uniqFirst (l : List String) : List String := uniqFirstAux l []

/-- Python `sep.join(l)` (src/main.py line 333). -/
def joinSep (sep : String) : List String → String
  | [] => ""
  | [x] => x
  | x :: y :: xs => x ++ sep ++ joinSep sep (y :: xs)

/-! ## Data model -/

/-- The ExtractedHeader produced by `extract_header_fields`
(src/main.py lines 164-168). -/
structure Header where
  CertificateNumber : String
  Sample : String
  LotNumber : String
deriving DecidableEq

/-- One AnalyteResultRow: the header fields are embedded into every row
(`{**header, ...}`, src/main.py lines 194-199 and 208-222). -/
structure Row where
  header : Header
  Analyte : String
  Result : String
  Unit : String
deriving DecidableEq

/-- One source row of the reference workbook after `pd.concat` of all
sheets (src/main.py lines 67-68): `cell` is the string form of column 0
(the lot-bearing cell), `internal` the string form of column 2 (internal
lot id), `supplier` the string form of column 3. -/
structure RefRow where
  cell : String
  internal : String
  supplier : String
deriving DecidableEq

/-- One exploded ReferenceLotRecord (one digit run of a cell),
src/main.py lines 70-77. -/
structure RefRecord where
  external : String
  internal : String
  supplier : String
deriving DecidableEq

/-- Explosion of one reference row (src/main.py lines 70-77): the cell's
string form has every occurrence of the literal `.0` deleted
(`.str.replace(".0", "", regex=False)`), then `.str.findall(r"\d+")`
takes its maximal digit runs, `explode` makes one record per run, and
`.str.strip()` trims each run. -/
def explodeRow (r : RefRow) : List RefRecord :=
  (digitRunsS (replaceAllS r.cell (".0") (""))).map
    (fun d => ⟨trimS d, r.internal, r.supplier⟩)

/-- The full Reference Table: rows in the concatenation order of the
source sheets, each exploded (src/main.py lines 67-77; rows whose cell
has no digit run contribute nothing, matching the `notna` filter after
`explode`). -/
def buildRefTable (rows : List RefRow) : List RefRecord :=
  rows.flatMap explodeRow

/-! ## Ledger (src/main.py lines 82-109)

The sqlite table `processed` is modelled as the list of its
`(filehash, filename)` rows in insertion order. -/

/-- `already_done` (src/main.py lines 100-102): is there a row with this
file hash? -/
def already_done (led : List (String × String)) (h : String) : Bool :=
  led.any (fun e => e.1 == h)

/-- `mark_done` (src/main.py lines 104-109): `INSERT OR IGNORE` keyed on
the hash — append the row only when the hash is absent. -/
def mark_done (led : List (String × String)) (h name : String) :
    List (String × String) :=
  if already_done led h then led else led ++ [(h, name)]

/-! ## Header extraction (src/main.py lines 129-168) -/

/-- The first loop of `extract_header_fields` (src/main.py lines
136-147), with the two accumulators `cert` and `lot` (both initially
empty; `not cert` / `not lot` is Python truthiness, i.e. emptiness). -/
def headerScan : List String → String → String → String × String
  | [], cert, lot => (cert, lot)
  | l :: ls, cert, lot =>
    let ll := lowerS l
    let cert1 :=
      if containsSub ll ("certificate number") && cert == "" then
        match firstMatchCh dokkiAt ll.data with
        | some m => replaceAllS (String.mk m) ("dokki") ("Dokki")
        | none => cert
      else cert
    let lot1 :=
      if containsSub ll ("lot number") && lot == "" then
        match firstMatchCh numFracAt l.data with
        | some m => String.mk m
        | none => lot
      else lot
    headerScan ls cert1 lot1

/-- The PRODUCTS whitelist scan (src/main.py lines 150-153): first
product that is a substring of the lowered raw text. -/
def firstProduct : List String → String → Option String
  | [], _ => none
  | p :: ps, rl => if containsSub rl p then some p else firstProduct ps rl

/-- The `Sample :` fallback (src/main.py lines 157-162): first line whose
lower-casing starts with `sample :`; its text after the colon is cut at
the first `fax`/`phone`/`id`/digit and stripped. -/
def sampleFromLines : List String → String
  | [] => ""
  | l :: ls =>
    if isPrefixCh ("sample :").data (lowerS l).data then
      trimS (String.mk (truncSampleCh (afterColonCh l.data)))
    else sampleFromLines ls

/-- `extract_header_fields` (src/main.py lines 129-168).  The PRODUCTS
list is passed explicitly (in the source it is module state loaded from
`products_list.csv`, each entry stripped and lower-cased). -/
def extract_header_fields (products : List String) (raw_text : String) :
    Header :=
  let lines := splitLinesS raw_text
  let cl := headerScan lines ("") ("")
  let sample0 :=
    match firstProduct products (lowerS raw_text) with
    | some p => titleCaseS p
    | none => ""
  let sample := if sample0 == "" then sampleFromLines lines else sample0
  ⟨cl.1, sample, cl.2⟩

/-! ## Results extraction (src/main.py lines 173-227) -/

/-- The inner pesticide loop for one captured line (src/main.py lines
202-225): every PESTICIDES entry that is a substring of the lowered line
emits a row — an `LOQ` row when the line contains `<loq`, else a decimal
row when the line holds a `digits.digits` match, else nothing.  The
`matched`/`continue` bookkeeping of the source has no observable effect
(nothing follows the loop in the body). -/
def lineRows (pesticides : List String) (hdr : Header) (ll : String) :
    List Row :=
  pesticides.flatMap (fun pest =>
    if containsSub ll pest then
      if containsSub ll ("<loq") then [⟨hdr, titleCaseS pest, "LOQ", ""⟩]
      else
        match firstMatchCh decimalAt ll.data with
        | some m => [⟨hdr, titleCaseS pest, String.mk m, "mg/kg"⟩]
        | none => []
    else [])

/-- The line loop of `extract_results_to_rows` (src/main.py lines
178-227) with its `capture` flag and accumulated `rows`.  Check order per
line exactly as in the source: `results of analysis` (sets capture,
consumes the line) — then, when capturing: `measurement uncertainty`
(break), blank (skip), `not detected` (append the synthetic row and
return), else the pesticide loop. -/
def resultsLoop (pesticides : List String) (hdr : Header) :
    List String → Bool → List Row → List Row
  | [], _, rows => rows
  | l :: ls, capture, rows =>
    let ll := lowerS l
    if containsSub ll ("results of analysis") then
      resultsLoop pesticides hdr ls true rows
    else if capture then
      if containsSub ll ("measurement uncertainty") then rows
      else if trimS ll = "" then resultsLoop pesticides hdr ls capture rows
      else if containsSub ll ("not detected") then
        rows ++ [⟨hdr, "Pesticide Residues", "Not detected", ""⟩]
      else resultsLoop pesticides hdr ls capture (rows ++ lineRows pesticides hdr ll)
    else resultsLoop pesticides hdr ls capture rows

/-- `extract_results_to_rows` (src/main.py lines 173-227).  PESTICIDES is
passed explicitly (module state from `pesticides_list.csv`, stripped and
lower-cased). -/
def extract_results_to_rows (pesticides : List String) (hdr : Header)
    (raw_text : String) : List Row :=
  resultsLoop pesticides hdr (splitLinesS raw_text) false []

/-! ## Reconciliation and the per-file driver step
(src/main.py lines 299-344) -/

/-- The reconciliation step (src/main.py lines 326-333): candidate
external lots are all maximal digit runs of the raw text; the matching
records are the Reference Table rows (in build order) whose external id
is among the candidates.  An empty match set raises `LOT NOT FOUND`;
otherwise the supplier of the first match and the ` / `-join of the
first-occurrence-distinct internal ids are produced. -/
def reconcile (refT : List RefRecord) (raw : String) :
    Except String (String × String) :=
  let cands := digitRunsS raw
  match refT.filter (fun r => cands.contains r.external) with
  | [] => Except.error ("LOT NOT FOUND")
  | m0 :: rest =>
    Except.ok (m0.supplier,
      joinSep (" / ") (uniqFirst ((m0 :: rest).map (fun r => r.internal))))

/-- Final location of the file after one driver iteration. -/
inductive Area where
  | done
  | error
deriving DecidableEq

/-- Observable outcome of one per-file driver iteration: the ledger
afterwards, the area the file ends in, the name of the results CSV if one
was written into the done folder, and the `(supplier, internal_text)`
pair handed to `build_annotated_pdf` if the annotator was invoked. -/
structure Outcome where
  ledger : List (String × String)
  area : Area
  csv : Option String
  annotInput : Option (String × String)
deriving DecidableEq

/-- Discovery filter (src/main.py line 301): the extension is matched
case-insensitively. -/
def discovered (file : String) : Bool :=
  isPrefixCh (".pdf").data.reverse (lowerS file).data.reverse

/-- One iteration of the per-file body of the main loop (src/main.py
lines 304-344) for a file already moved into the working area.  External
collaborators are abstracted: `h` is the content hash (`file_hash`),
`ocr` the OCR result (`none` = `ocr_text` raised), `annotateOk` whether
`build_annotated_pdf` succeeds, `moveOk` whether the final move to the
done folder succeeds.  The `except` handler moves the file to the error
area on any failure; `print_pdf` swallows its own errors and is
irrelevant to the outcome.  Order as in the source: duplicate check,
OCR, header and results extraction, results-CSV write, reconciliation,
annotation, move to done, ledger insert. -/
def process_file (refT : List RefRecord) (products pesticides : List String)
    (led : List (String × String)) (file h : String)
    (ocr : Option String) (annotateOk moveOk : Bool) : Outcome :=
  if already_done led h then ⟨led, Area.done, none, none⟩
  else
    match ocr with
    | none => ⟨led, Area.error, none, none⟩
    | some raw =>
      let header := extract_header_fields products raw
      let rows := extract_results_to_rows pesticides header raw
      let csv :=
        if rows.isEmpty then none
        else some (replaceAllS file (".pdf") ("_RESULTS.csv"))
      match reconcile refT raw with
      | Except.error _ => ⟨led, Area.error, csv, none⟩
      | Except.ok st =>
        if annotateOk then
          if moveOk then ⟨mark_done led h file, Area.done, csv, some st⟩
          else ⟨led, Area.error, csv, some st⟩
        else ⟨led, Area.error, csv, some st⟩

/-! ## Ledger lemmas -/

/-- With the hash absent, `INSERT OR IGNORE` appends one row. -/
theorem mark_done_of_not_done {led : List (String × String)} {h name : String}
    (hd : already_done led h = false) :
    mark_done led h name = led ++ [(h, name)] := by
  simp [mark_done, hd]

/-- `already_done led h = false` says exactly that `h` is not among the
recorded hashes. -/
theorem already_done_eq_false_iff (led : List (String × String)) (h : String) :
    already_done led h = false ↔ h ∉ led.map Prod.fst := by
  constructor
  · intro hd hmem
    obtain ⟨x, hx, hfst⟩ := List.mem_map.mp hmem
    have hany : led.any (fun e => e.1 == h) = true :=
      List.any_eq_true.mpr ⟨x, hx, beq_iff_eq.mpr hfst⟩
    rw [already_done] at hd
    rw [hd] at hany
    exact Bool.false_ne_true hany
  · intro hnm
    rw [already_done]
    cases hb : led.any (fun e => e.1 == h) with
    | false => rfl
    | true =>
      obtain ⟨x, hx, hbeq⟩ := List.any_eq_true.mp hb
      exact absurd (List.mem_map.mpr ⟨x, hx, beq_iff_eq.mp hbeq⟩) hnm

/-- `mark_done` preserves key uniqueness. -/
theorem mark_done_nodup {led : List (String × String)} {h name : String}
    (hn : (led.map Prod.fst).Nodup) :
    ((mark_done led h name).map Prod.fst).Nodup := by
  cases hd : already_done led h with
  | true => simpa [mark_done, hd] using hn
  | false =>
    rw [mark_done_of_not_done hd]
    have hmem : h ∉ led.map Prod.fst := (already_done_eq_false_iff led h).mp hd
    simp only [List.map_append, List.map_cons, List.map_nil]
    rw [List.nodup_append]
    refine ⟨hn, by simp, ?_⟩
    intro a ha hb
    simp only [List.mem_singleton] at hb
    exact hmem (hb ▸ ha)

/-! ## Claim theorems: driver and ledger -/

/-- C1: the ledger is the commit point.  For one driver iteration:
if the file ends in the error area the ledger is unchanged; the ledger
changes only when the duplicate check, OCR, reconciliation, annotation
and the move to the done area all succeeded, and then it changes by
exactly the one new `(hash, filename)` row; and hash uniqueness of the
ledger is preserved. -/
theorem claim1_ledger_commit_point
    (refT : List RefRecord) (products pesticides : List String)
    (led : List (String × String)) (file h : String)
    (ocr : Option String) (annotateOk moveOk : Bool) :
    ((process_file refT products pesticides led file h ocr annotateOk moveOk).area = Area.error →
      (process_file refT products pesticides led file h ocr annotateOk moveOk).ledger = led)
  ∧ ((process_file refT products pesticides led file h ocr annotateOk moveOk).ledger ≠ led →
      already_done led h = false ∧ ocr.isSome = true ∧ annotateOk = true ∧ moveOk = true ∧
      (process_file refT products pesticides led file h ocr annotateOk moveOk).annotInput.isSome = true ∧
      (process_file refT products pesticides led file h ocr annotateOk moveOk).area = Area.done ∧
      (process_file refT products pesticides led file h ocr annotateOk moveOk).ledger = led ++ [(h, file)])
  ∧ ((led.map Prod.fst).Nodup →
      ((process_file refT products pesticides led file h ocr annotateOk moveOk).ledger.map Prod.fst).Nodup) := by
  cases hd : already_done led h with
  | true => simp [process_file, hd]
  | false =>
    cases ocr with
    | none => simp [process_file, hd]
    | some raw =>
      cases hrec : reconcile refT raw with
      | error e => simp [process_file, hd, hrec]
      | ok st =>
        cases annotateOk with
        | false => simp [process_file, hd, hrec]
        | true =>
          cases moveOk with
          | false => simp [process_file, hd, hrec]
          | true =>
            refine ⟨?_, ?_, ?_⟩
            · intro ha
              simp [process_file, hd, hrec] at ha
            · intro _
              refine ⟨rfl, rfl, rfl, rfl, ?_, ?_, ?_⟩
              · simp [process_file, hd, hrec]
              · simp [process_file, hd, hrec]
              · simp [process_file, hd, hrec, mark_done_of_not_done]
            · intro hn
              have : (process_file refT products pesticides led file h (some raw) true true).ledger =
                  mark_done led h file := by
                simp [process_file, hd, hrec]
              rw [this]
              exact mark_done_nodup hn

/-- C1 witness: a concrete failed run (OCR failure) leaves the concrete
ledger unchanged, and preserves its key uniqueness. -/
theorem claim1_ledger_commit_point_witness :
    (process_file [] [] [] [("h0", "f0")] "a.pdf" "h1" none true true).ledger = [("h0", "f0")]
  ∧ (((process_file [] [] [] [("h0", "f0")] "a.pdf" "h1" none true true).ledger.map Prod.fst).Nodup) :=
  ⟨(claim1_ledger_commit_point [] [] [] [("h0", "f0")] "a.pdf" "h1" none true true).1 (by decide),
   (claim1_ledger_commit_point [] [] [] [("h0", "f0")] "a.pdf" "h1" none true true).2.2 (by decide)⟩

/-- C2: idempotent short-circuit.  When the content hash is already in
the ledger, the iteration only moves the file to the done area: the
ledger is unchanged, no results CSV is written, the annotator is not
invoked — and the outcome is independent of the reference table, the
lexicons, the OCR result and the annotation/move successes, i.e. none of
those steps runs. -/
theorem claim2_duplicate_short_circuit
    (refT : List RefRecord) (products pesticides : List String)
    (led : List (String × String)) (file h : String)
    (ocr : Option String) (annotateOk moveOk : Bool)
    (hdup : already_done led h = true) :
    process_file refT products pesticides led file h ocr annotateOk moveOk =
      ⟨led, Area.done, none, none⟩
  ∧ ∀ (refT2 : List RefRecord) (products2 pesticides2 : List String)
      (ocr2 : Option String) (annotateOk2 moveOk2 : Bool),
      process_file refT2 products2 pesticides2 led file h ocr2 annotateOk2 moveOk2 =
      process_file refT products pesticides led file h ocr annotateOk moveOk := by
  constructor
  · simp [process_file, hdup]
  · intro refT2 products2 pesticides2 ocr2 annotateOk2 moveOk2
    simp [process_file, hdup]

/-- C2 witness: a concrete duplicate hash short-circuits to the done
area with nothing else happening. -/
theorem claim2_duplicate_short_circuit_witness :
    process_file [] [] ["chlorpyrifos"] [("h1", "a.pdf")] "a.pdf" "h1"
      (some ("results of analysis\nchlorpyrifos 0.50")) true true =
    ⟨[("h1", "a.pdf")], Area.done, none, none⟩ :=
  (claim2_duplicate_short_circuit [] [] ["chlorpyrifos"] [("h1", "a.pdf")] "a.pdf" "h1"
    (some ("results of analysis\nchlorpyrifos 0.50")) true true (by decide)).1

/-! ## Results-extractor lemmas -/

/-- Spec formula for the rows of the captured section (spec section 4.3):
every non-blank captured line is tested against the whole analyte lexicon
and its matches emit rows in line order. -/
def midRowsOf (pesticides : List String) (hdr : Header) (mid : List String) :
    List Row :=
  mid.flatMap (fun l =>
    if trimS (lowerS l) = "" then [] else lineRows pesticides hdr (lowerS l))

/-- Before capture starts, lines without the section marker are skipped. -/
theorem resultsLoop_skip (pesticides : List String) (hdr : Header) :
    ∀ (pre ls : List String) (rows : List Row),
    (∀ l ∈ pre, containsSub (lowerS l) ("results of analysis") = false) →
    resultsLoop pesticides hdr (pre ++ ls) false rows =
    resultsLoop pesticides hdr ls false rows := by
  intro pre
  induction pre with
  | nil => intro ls rows _; rfl
  | cons l pre ih =>
    intro ls rows hpre
    have h1 := hpre l (by simp)
    simp only [List.cons_append, resultsLoop, h1, Bool.false_eq_true, if_false]
    exact ih ls rows (fun lp hlp => hpre lp (by simp [hlp]))

/-- A line containing the section marker flips capture on and is
consumed. -/
theorem resultsLoop_start (pesticides : List String) (hdr : Header)
    (start : String) (ls : List String) (rows : List Row) (b : Bool)
    (hs : containsSub (lowerS start) ("results of analysis") = true) :
    resultsLoop pesticides hdr (start :: ls) b rows =
    resultsLoop pesticides hdr ls true rows := by
  simp only [resultsLoop, hs, if_true]

/-- Captured lines free of all three control phrases contribute exactly
their per-line rows, in order. -/
theorem resultsLoop_mid (pesticides : List String) (hdr : Header) :
    ∀ (mid : List String) (ls : List String) (rows : List Row),
    (∀ l ∈ mid, containsSub (lowerS l) ("results of analysis") = false ∧
        containsSub (lowerS l) ("measurement uncertainty") = false ∧
        containsSub (lowerS l) ("not detected") = false) →
    resultsLoop pesticides hdr (mid ++ ls) true rows =
    resultsLoop pesticides hdr ls true (rows ++ midRowsOf pesticides hdr mid) := by
  intro mid
  induction mid with
  | nil => intro ls rows _; simp [midRowsOf]
  | cons l mid ih =>
    intro ls rows hmid
    obtain ⟨h1, h2, h3⟩ := hmid l (by simp)
    have htail : ∀ lp ∈ mid, _ := fun lp hlp => hmid lp (by simp [hlp])
    by_cases hb : trimS (lowerS l) = ""
    · simp only [List.cons_append, resultsLoop, h1, Bool.false_eq_true, if_false,
        h2, h3, hb, if_true, List.append_eq]
      rw [ih ls rows htail]
      have : midRowsOf pesticides hdr (l :: mid) = midRowsOf pesticides hdr mid := by
        simp [midRowsOf, hb]
      rw [this]
    · simp only [List.cons_append, resultsLoop, h1, Bool.false_eq_true, if_false,
        h2, h3, hb, if_true, List.append_eq]
      rw [ih ls (rows ++ lineRows pesticides hdr (lowerS l)) htail]
      have : rows ++ lineRows pesticides hdr (lowerS l) ++ midRowsOf pesticides hdr mid =
          rows ++ midRowsOf pesticides hdr (l :: mid) := by
        simp [midRowsOf, hb, List.append_assoc]
      rw [this]

/-- The first captured line containing the hard-stop phrase (and not the
section marker) ends extraction with the rows accumulated so far. -/
theorem resultsLoop_stop (pesticides : List String) (hdr : Header)
    (stop : String) (post : List String) (rows : List Row)
    (h1 : containsSub (lowerS stop) ("results of analysis") = false)
    (h2 : containsSub (lowerS stop) ("measurement uncertainty") = true) :
    resultsLoop pesticides hdr (stop :: post) true rows = rows := by
  simp only [resultsLoop, h1, Bool.false_eq_true, if_false, h2, if_true]

/-- Every character of a matched pattern occurs in the searched list. -/
theorem isPrefixCh_mem : ∀ {p l : List Char}, isPrefixCh p l = true →
    ∀ c ∈ p, c ∈ l := by
  intro p
  induction p with
  | nil => intro l _ c hc; simp at hc
  | cons a p ih =>
    intro l h c hc
    cases l with
    | nil => simp [isPrefixCh] at h
    | cons b l =>
      simp only [isPrefixCh, Bool.and_eq_true, beq_iff_eq] at h
      rcases List.mem_cons.mp hc with hca | hcp
      · exact List.mem_cons.mpr (Or.inl (hca.trans h.1))
      · exact List.mem_cons.mpr (Or.inr (ih h.2 c hcp))

/-- Characters of a contained substring occur in the containing list. -/
theorem containsCh_mem : ∀ {s pat : List Char}, containsCh s pat = true →
    ∀ c ∈ pat, c ∈ s := by
  intro s
  induction s with
  | nil =>
    intro pat h c hc
    simp only [containsCh, List.isEmpty_iff] at h
    subst h; simp at hc
  | cons a s ih =>
    intro pat h c hc
    simp only [containsCh, Bool.or_eq_true] at h
    rcases h with h | h
    · exact isPrefixCh_mem h c hc
    · exact List.mem_cons.mpr (Or.inr (ih h c hc))

/-- A string whose strip is empty consists of whitespace only. -/
theorem trimS_eq_empty_all_ws {s : String} (h : trimS s = "") :
    ∀ c ∈ s.data, c.isWhitespace = true := by
  have hdata : trimCh s.data = [] := by
    have := congrArg String.data h
    simpa [trimS] using this
  unfold trimCh at hdata
  rw [List.reverse_eq_nil_iff, List.dropWhile_eq_nil_iff] at hdata
  have hall : ∀ c ∈ s.data.dropWhile Char.isWhitespace, c.isWhitespace = true := by
    intro c hc
    exact hdata c (List.mem_reverse.mpr hc)
  intro c hc
  rw [← List.takeWhile_append_dropWhile (p := Char.isWhitespace) (l := s.data)] at hc
  rcases List.mem_append.mp hc with hc | hc
  · exact List.mem_takeWhile_imp hc
  · exact hall c hc

/-- A line containing `not detected` is never blank. -/
theorem contains_notdetected_nonblank {s : String}
    (h : containsSub s ("not detected") = true) : ¬ trimS s = "" := by
  intro hb
  have hn : 'n' ∈ s.data := containsCh_mem h 'n' (by decide)
  have := trimS_eq_empty_all_ws hb 'n' hn
  simp at this

/-- The first captured line containing `not detected` (and neither
control phrase checked before it) appends the synthetic row and
terminates extraction. -/
theorem resultsLoop_nd (pesticides : List String) (hdr : Header)
    (nd : String) (post : List String) (rows : List Row)
    (h1 : containsSub (lowerS nd) ("results of analysis") = false)
    (h2 : containsSub (lowerS nd) ("measurement uncertainty") = false)
    (h3 : containsSub (lowerS nd) ("not detected") = true) :
    resultsLoop pesticides hdr (nd :: post) true rows =
    rows ++ [⟨hdr, "Pesticide Residues", "Not detected", ""⟩] := by
  have hb := contains_notdetected_nonblank h3
  simp only [resultsLoop, h1, Bool.false_eq_true, if_false, h2, hb, h3, if_true]

/-! ## Claim theorems: results extractor -/

/-- C3 (amended): when the first line containing `results of analysis`
is immediately followed by a line that contains `not detected` — and that
line contains neither `measurement uncertainty` nor `results of
analysis`, the two phrases the source checks first — the extractor
returns exactly the one synthetic row and ignores every later line. -/
theorem claim3_not_detected_short_circuit
    (pesticides : List String) (hdr : Header) (raw : String)
    (pre : List String) (start nd : String) (post : List String)
    (hsplit : splitLinesS raw = pre ++ start :: nd :: post)
    (hpre : ∀ l ∈ pre, containsSub (lowerS l) ("results of analysis") = false)
    (hstart : containsSub (lowerS start) ("results of analysis") = true)
    (hnd1 : containsSub (lowerS nd) ("not detected") = true)
    (hnd2 : containsSub (lowerS nd) ("measurement uncertainty") = false)
    (hnd3 : containsSub (lowerS nd) ("results of analysis") = false) :
    extract_results_to_rows pesticides hdr raw =
      [⟨hdr, "Pesticide Residues", "Not detected", ""⟩] := by
  unfold extract_results_to_rows
  rw [hsplit, resultsLoop_skip pesticides hdr pre (start :: nd :: post) [] hpre,
    resultsLoop_start pesticides hdr start (nd :: post) [] false hstart,
    resultsLoop_nd pesticides hdr nd post [] hnd3 hnd2 hnd1]
  simp

/-- C3 witness: a concrete certificate whose `not detected` line directly
follows the section marker yields exactly the synthetic row, discarding a
later analyte line. -/
theorem claim3_not_detected_short_circuit_witness :
    extract_results_to_rows ["chlorpyrifos"] ⟨"", "", ""⟩
      ("intro\nResults of Analysis\nNOT DETECTED\nchlorpyrifos 0.50") =
      [⟨⟨"", "", ""⟩, "Pesticide Residues", "Not detected", ""⟩] :=
  claim3_not_detected_short_circuit ["chlorpyrifos"] ⟨"", "", ""⟩
    ("intro\nResults of Analysis\nNOT DETECTED\nchlorpyrifos 0.50")
    ["intro"] ("Results of Analysis") ("NOT DETECTED") ["chlorpyrifos 0.50"]
    (by decide) (by decide) (by decide) (by decide) (by decide) (by decide)

/-- C3 counterexample: the claim as stated is false.  Here the line
starting the results section is immediately followed by a line containing
`not detected`, yet the extractor returns no row at all, because that
line also contains `measurement uncertainty`, which the source checks
first and treats as a hard stop. -/
theorem claim3_counterexample :
    splitLinesS ("results of analysis\nnot detected measurement uncertainty\nchlorpyrifos 0.50") =
      ["results of analysis", "not detected measurement uncertainty", "chlorpyrifos 0.50"]
  ∧ containsSub (lowerS ("not detected measurement uncertainty")) ("not detected") = true
  ∧ extract_results_to_rows ["chlorpyrifos"] ⟨"", "", ""⟩
      ("results of analysis\nnot detected measurement uncertainty\nchlorpyrifos 0.50") = [] := by
  refine ⟨by decide, by decide, by decide⟩

/-- C4 (amended): section behaviour of the extractor.  On text whose
lines decompose as prologue (no section marker), a marker line, captured
lines free of all three control phrases, a hard-stop line containing
`measurement uncertainty` (and not the marker), and an arbitrary suffix:
the output is exactly the concatenation, in line order, of the per-line
rows of the non-blank captured lines, each line tested against every
lexicon entry independently — `<loq` lines emit `LOQ` rows with empty
unit, otherwise the first `digits.digits` match emits a `mg/kg` row,
otherwise nothing — with no sorting and no deduplication, and nothing
after the hard stop contributes. -/
theorem claim4_section_rows
    (pesticides : List String) (hdr : Header) (raw : String)
    (pre : List String) (start : String) (mid : List String)
    (stop : String) (post : List String)
    (hsplit : splitLinesS raw = pre ++ start :: (mid ++ stop :: post))
    (hpre : ∀ l ∈ pre, containsSub (lowerS l) ("results of analysis") = false)
    (hstart : containsSub (lowerS start) ("results of analysis") = true)
    (hmid : ∀ l ∈ mid, containsSub (lowerS l) ("results of analysis") = false ∧
        containsSub (lowerS l) ("measurement uncertainty") = false ∧
        containsSub (lowerS l) ("not detected") = false)
    (hstop1 : containsSub (lowerS stop) ("results of analysis") = false)
    (hstop2 : containsSub (lowerS stop) ("measurement uncertainty") = true) :
    extract_results_to_rows pesticides hdr raw = midRowsOf pesticides hdr mid := by
  unfold extract_results_to_rows
  rw [hsplit, resultsLoop_skip pesticides hdr pre (start :: (mid ++ stop :: post)) [] hpre,
    resultsLoop_start pesticides hdr start (mid ++ stop :: post) [] false hstart,
    resultsLoop_mid pesticides hdr mid (stop :: post) [] hmid,
    resultsLoop_stop pesticides hdr stop post _ hstop1 hstop2]
  simp

/-- C4 witness: a concrete section with a decimal line, an `LOQ` line and
a repeated analyte line, cut off by the hard stop; the rows come out in
line order with the repeat kept, and the post-stop line is discarded. -/
theorem claim4_section_rows_witness :
    extract_results_to_rows ["chlorpyrifos", "dimethoate"] ⟨"", "", ""⟩
      ("intro\nResults of Analysis\nChlorpyrifos 0.023 mg/kg\nDimethoate <LOQ\nChlorpyrifos 1.50\nMeasurement Uncertainty 5%\nDimethoate 9.99") =
      midRowsOf ["chlorpyrifos", "dimethoate"] ⟨"", "", ""⟩
        ["Chlorpyrifos 0.023 mg/kg", "Dimethoate <LOQ", "Chlorpyrifos 1.50"]
  ∧ midRowsOf ["chlorpyrifos", "dimethoate"] ⟨"", "", ""⟩
      ["Chlorpyrifos 0.023 mg/kg", "Dimethoate <LOQ", "Chlorpyrifos 1.50"] =
      [⟨⟨"", "", ""⟩, "Chlorpyrifos", "0.023", "mg/kg"⟩,
       ⟨⟨"", "", ""⟩, "Dimethoate", "LOQ", ""⟩,
       ⟨⟨"", "", ""⟩, "Chlorpyrifos", "1.50", "mg/kg"⟩] :=
  ⟨claim4_section_rows ["chlorpyrifos", "dimethoate"] ⟨"", "", ""⟩
    ("intro\nResults of Analysis\nChlorpyrifos 0.023 mg/kg\nDimethoate <LOQ\nChlorpyrifos 1.50\nMeasurement Uncertainty 5%\nDimethoate 9.99")
    ["intro"] ("Results of Analysis")
    ["Chlorpyrifos 0.023 mg/kg", "Dimethoate <LOQ", "Chlorpyrifos 1.50"]
    ("Measurement Uncertainty 5%") ["Dimethoate 9.99"]
    (by decide) (by decide) (by decide) (by decide) (by decide) (by decide),
   by decide⟩

/-- C4 counterexample: the claim as stated is false.  Inside the section
and before the `measurement uncertainty` hard stop, a line containing
`not detected` is not tested against the lexicon: it preempts the whole
section, so the analyte row the claim requires for the later matching
line is never produced. -/
theorem claim4_counterexample :
    splitLinesS ("results of analysis\nnot detected\nchlorpyrifos 0.50\nmeasurement uncertainty") =
      ["results of analysis", "not detected", "chlorpyrifos 0.50", "measurement uncertainty"]
  ∧ midRowsOf ["chlorpyrifos"] ⟨"", "", ""⟩ ["not detected", "chlorpyrifos 0.50"] =
      [⟨⟨"", "", ""⟩, "Chlorpyrifos", "0.50", "mg/kg"⟩]
  ∧ extract_results_to_rows ["chlorpyrifos"] ⟨"", "", ""⟩
      ("results of analysis\nnot detected\nchlorpyrifos 0.50\nmeasurement uncertainty") =
      [⟨⟨"", "", ""⟩, "Pesticide Residues", "Not detected", ""⟩] := by
  refine ⟨by decide, by decide, by decide⟩

/-- C10: a `not detected` line reached after earlier emitting lines
appends the synthetic row to the rows already emitted and returns them
all; the synthetic row is the sole output exactly when no earlier
captured line emitted a row. -/
theorem claim10_not_detected_appends
    (pesticides : List String) (hdr : Header) (raw : String)
    (pre : List String) (start : String) (mid : List String)
    (nd : String) (post : List String) (midRows : List Row)
    (hsplit : splitLinesS raw = pre ++ start :: (mid ++ nd :: post))
    (hpre : ∀ l ∈ pre, containsSub (lowerS l) ("results of analysis") = false)
    (hstart : containsSub (lowerS start) ("results of analysis") = true)
    (hmid : ∀ l ∈ mid, containsSub (lowerS l) ("results of analysis") = false ∧
        containsSub (lowerS l) ("measurement uncertainty") = false ∧
        containsSub (lowerS l) ("not detected") = false)
    (hnd1 : containsSub (lowerS nd) ("not detected") = true)
    (hnd2 : containsSub (lowerS nd) ("measurement uncertainty") = false)
    (hnd3 : containsSub (lowerS nd) ("results of analysis") = false)
    (hmr : midRows = midRowsOf pesticides hdr mid) :
    extract_results_to_rows pesticides hdr raw =
      midRows ++ [⟨hdr, "Pesticide Residues", "Not detected", ""⟩]
  ∧ (midRows ≠ [] → 2 ≤ (extract_results_to_rows pesticides hdr raw).length)
  ∧ (extract_results_to_rows pesticides hdr raw =
      [⟨hdr, "Pesticide Residues", "Not detected", ""⟩] ↔ midRows = []) := by
  have hmain : extract_results_to_rows pesticides hdr raw =
      midRows ++ [⟨hdr, "Pesticide Residues", "Not detected", ""⟩] := by
    unfold extract_results_to_rows
    rw [hsplit, resultsLoop_skip pesticides hdr pre (start :: (mid ++ nd :: post)) [] hpre,
      resultsLoop_start pesticides hdr start (mid ++ nd :: post) [] false hstart,
      resultsLoop_mid pesticides hdr mid (nd :: post) [] hmid,
      resultsLoop_nd pesticides hdr nd post _ hnd3 hnd2 hnd1, hmr]
    simp
  refine ⟨hmain, ?_, ?_⟩
  · intro hne
    rw [hmain, List.length_append]
    cases midRows with
    | nil => exact absurd rfl hne
    | cons r rs => simp
  · rw [hmain]
    constructor
    · intro heq
      have : midRows ++ [⟨hdr, "Pesticide Residues", "Not detected", ""⟩] =
          [] ++ [⟨hdr, "Pesticide Residues", "Not detected", ""⟩] := by
        simpa using heq
      exact List.append_cancel_right this
    · intro hnil
      rw [hnil]
      simp

/-- C10 witness: one emitted analyte row followed by a `not detected`
line yields both rows, in order. -/
theorem claim10_not_detected_appends_witness :
    extract_results_to_rows ["chlorpyrifos"] ⟨"", "", ""⟩
      ("Results of Analysis\nChlorpyrifos 0.023 mg/kg\nNot Detected\nignored") =
      [⟨⟨"", "", ""⟩, "Chlorpyrifos", "0.023", "mg/kg"⟩] ++
        [⟨⟨"", "", ""⟩, "Pesticide Residues", "Not detected", ""⟩] :=
  (claim10_not_detected_appends ["chlorpyrifos"] ⟨"", "", ""⟩
    ("Results of Analysis\nChlorpyrifos 0.023 mg/kg\nNot Detected\nignored")
    [] ("Results of Analysis") ["Chlorpyrifos 0.023 mg/kg"] ("Not Detected") ["ignored"]
    [⟨⟨"", "", ""⟩, "Chlorpyrifos", "0.023", "mg/kg"⟩]
    (by decide) (by decide) (by decide) (by decide) (by decide) (by decide)
    (by decide) (by decide)).1

/-! ## Header-extractor lemmas -/

/-- Spec-side test for one line of the LotNumber scan: a line containing
`lot number` (case-insensitively) whose text holds a
digits-optionally-slash-digits match yields that match. -/
def lotOfLine (l : String) : Option String :=
  if containsSub (lowerS l) ("lot number") then
    (firstMatchCh numFracAt l.data).map String.mk
  else none

/-- Spec-side test for one line of the CertificateNumber scan: a line
containing `certificate number` whose lower-casing holds a `dokki[-\d]+`
match yields that match with its `dokki` prefix recapitalised. -/
def certOfLine (l : String) : Option String :=
  if containsSub (lowerS l) ("certificate number") then
    (firstMatchCh dokkiAt (lowerS l).data).map
      (fun m => replaceAllS (String.mk m) ("dokki") ("Dokki"))
  else none

/-- A successful leftmost match comes from the matcher at some suffix. -/
theorem firstMatchCh_exists {f : List Char → Option (List Char)} :
    ∀ {l m : List Char}, firstMatchCh f l = some m → ∃ lp, f lp = some m := by
  intro l
  induction l with
  | nil => intro m h; exact ⟨[], h⟩
  | cons c cs ih =>
    intro m h
    simp only [firstMatchCh] at h
    split at h
    · rename_i mv hf
      exact ⟨c :: cs, hf.trans h⟩
    · exact ih h

/-- A numeric-or-fraction match is a non-empty character list. -/
theorem numFracAt_ne_nil {l m : List Char} (h : numFracAt l = some m) :
    m ≠ [] := by
  intro he
  subst he
  unfold numFracAt at h
  by_cases hd : (l.takeWhile Char.isDigit).isEmpty
  · simp [hd] at h
  · simp only [hd, Bool.false_eq_true, if_false] at h
    split at h
    · split at h
      · simp only [Option.some.injEq] at h
        exact hd (by rw [h]; rfl)
      · simp at h
    · simp only [Option.some.injEq] at h
      exact hd (by rw [h]; rfl)

/-- A `dokki[-\d]+` match is a non-empty character list. -/
theorem dokkiAt_ne_nil {l m : List Char} (h : dokkiAt l = some m) : m ≠ [] := by
  unfold dokkiAt at h
  by_cases hp : isPrefixCh ("dokki").data l
  · simp only [hp, if_true] at h
    by_cases ht : ((l.drop 5).takeWhile (fun c => c.isDigit || c == '-')).isEmpty
    · simp [ht] at h
    · simp only [ht, Bool.false_eq_true, if_false, Option.some.injEq] at h
      rw [← h]; simp
  · simp [hp] at h

/-- Replacement with a non-empty substitute keeps a non-empty list
non-empty. -/
theorem replaceChAux_ne_nil :
    ∀ (fuel : Nat) (s pat sub : List Char), s ≠ [] → sub ≠ [] →
    replaceChAux fuel s pat sub ≠ [] := by
  intro fuel
  cases fuel with
  | zero => intro s pat sub hs _; simpa [replaceChAux] using hs
  | succ n =>
    intro s pat sub hs hsub
    cases s with
    | nil => exact absurd rfl hs
    | cons c cs =>
      unfold replaceChAux
      by_cases hp : pat.isEmpty
      · simp [hp]
      · by_cases hpre : isPrefixCh pat (c :: cs)
        · simp [hp, hpre, hsub]
        · simp [hp, hpre]

/-- A line-level LotNumber hit is never the empty string. -/
theorem lotOfLine_ne_empty {l v : String} (h : lotOfLine l = some v) :
    v ≠ "" := by
  unfold lotOfLine at h
  by_cases hc : containsSub (lowerS l) ("lot number")
  · simp only [hc, if_true, Option.map_eq_some'] at h
    obtain ⟨m, hm, hv⟩ := h
    obtain ⟨lp, hlp⟩ := firstMatchCh_exists hm
    have hne := numFracAt_ne_nil hlp
    intro he
    exact hne (congrArg String.data (hv.trans he))
  · simp [hc] at h

/-- A line-level CertificateNumber hit is never the empty string. -/
theorem certOfLine_ne_empty {l v : String} (h : certOfLine l = some v) :
    v ≠ "" := by
  unfold certOfLine at h
  by_cases hc : containsSub (lowerS l) ("certificate number")
  · simp only [hc, if_true, Option.map_eq_some'] at h
    obtain ⟨m, hm, hv⟩ := h
    obtain ⟨lp, hlp⟩ := firstMatchCh_exists hm
    have hne := dokkiAt_ne_nil hlp
    intro he
    have hd : replaceChAux (String.mk m).data.length (String.mk m).data
        ("dokki").data ("Dokki").data = [] :=
      congrArg String.data (hv.trans he)
    exact replaceChAux_ne_nil _ _ _ _ hne (by decide) hd
  · simp [hc] at h

/-- The LotNumber accumulator is independent of the cert accumulator. -/
theorem headerScan_lot_indep :
    ∀ (ls : List String) (c1 c2 lot : String),
    (headerScan ls c1 lot).2 = (headerScan ls c2 lot).2 := by
  intro ls
  induction ls with
  | nil => intro c1 c2 lot; rfl
  | cons l ls ih =>
    intro c1 c2 lot
    simp only [headerScan]
    exact ih _ _ _

/-- The cert accumulator is independent of the LotNumber accumulator. -/
theorem headerScan_cert_indep :
    ∀ (ls : List String) (c lot1 lot2 : String),
    (headerScan ls c lot1).1 = (headerScan ls c lot2).1 := by
  intro ls
  induction ls with
  | nil => intro c lot1 lot2; rfl
  | cons l ls ih =>
    intro c lot1 lot2
    simp only [headerScan]
    exact ih _ _ _

/-- Once the LotNumber accumulator is non-empty it never changes
(first match wins; `not lot` is false for a non-empty string). -/
theorem headerScan_lot_stable :
    ∀ (ls : List String) (c lot : String), lot ≠ "" →
    (headerScan ls c lot).2 = lot := by
  intro ls
  induction ls with
  | nil => intro c lot _; rfl
  | cons l ls ih =>
    intro c lot hlot
    have h0 : (lot == "") = false := beq_eq_false_iff_ne.mpr hlot
    simp only [headerScan, h0, Bool.and_false, Bool.false_eq_true, if_false]
    exact ih _ _ hlot

/-- Once the cert accumulator is non-empty it never changes. -/
theorem headerScan_cert_stable :
    ∀ (ls : List String) (c lot : String), c ≠ "" →
    (headerScan ls c lot).1 = c := by
  intro ls
  induction ls with
  | nil => intro c lot _; rfl
  | cons l ls ih =>
    intro c lot hc
    have h0 : (c == "") = false := beq_eq_false_iff_ne.mpr hc
    simp only [headerScan, h0, Bool.and_false, Bool.false_eq_true, if_false]
    exact ih _ _ hc

/-- A line with no LotNumber hit leaves the empty accumulator empty. -/
theorem headerScan_lot_miss (l : String) (ls : List String) (c : String)
    (hl : lotOfLine l = none) :
    (headerScan (l :: ls) c "").2 = (headerScan ls c "").2 := by
  simp only [headerScan]
  by_cases hc : containsSub (lowerS l) ("lot number")
  · have hm : firstMatchCh numFracAt l.data = none := by
      unfold lotOfLine at hl
      simp only [hc, if_true, Option.map_eq_none'] at hl
      exact hl
    simp only [hc, hm, Bool.true_and, beq_self_eq_true, if_true]
    exact headerScan_lot_indep _ _ _ _
  · simp only [hc, Bool.false_eq_true, Bool.false_and, if_false]
    exact headerScan_lot_indep _ _ _ _

/-- A line with a LotNumber hit sets the accumulator to the hit, which
then survives the rest of the scan. -/
theorem headerScan_lot_hit (l : String) (ls : List String) (c v : String)
    (hl : lotOfLine l = some v) :
    (headerScan (l :: ls) c "").2 = v := by
  have hv : v ≠ "" := lotOfLine_ne_empty hl
  unfold lotOfLine at hl
  by_cases hc : containsSub (lowerS l) ("lot number")
  · simp only [hc, if_true, Option.map_eq_some'] at hl
    obtain ⟨m, hm, hmv⟩ := hl
    simp only [headerScan, hc, hm, Bool.true_and, beq_self_eq_true, if_true]
    rw [hmv]
    exact headerScan_lot_stable _ _ _ hv
  · simp [hc] at hl

/-- A line with no CertificateNumber hit leaves the empty accumulator
empty. -/
theorem headerScan_cert_miss (l : String) (ls : List String) (lot : String)
    (hl : certOfLine l = none) :
    (headerScan (l :: ls) "" lot).1 = (headerScan ls "" lot).1 := by
  simp only [headerScan]
  by_cases hc : containsSub (lowerS l) ("certificate number")
  · have hm : firstMatchCh dokkiAt (lowerS l).data = none := by
      unfold certOfLine at hl
      simp only [hc, if_true, Option.map_eq_none'] at hl
      exact hl
    simp only [hc, hm, Bool.true_and, beq_self_eq_true, if_true]
    exact headerScan_cert_indep _ _ _ _
  · simp only [hc, Bool.false_eq_true, Bool.false_and, if_false]
    exact headerScan_cert_indep _ _ _ _

/-- A line with a CertificateNumber hit sets the accumulator to the hit,
which then survives the rest of the scan. -/
theorem headerScan_cert_hit (l : String) (ls : List String) (lot v : String)
    (hl : certOfLine l = some v) :
    (headerScan (l :: ls) "" lot).1 = v := by
  have hv : v ≠ "" := certOfLine_ne_empty hl
  unfold certOfLine at hl
  by_cases hc : containsSub (lowerS l) ("certificate number")
  · simp only [hc, if_true, Option.map_eq_some'] at hl
    obtain ⟨m, hm, hmv⟩ := hl
    simp only [headerScan, hc, hm, Bool.true_and, beq_self_eq_true, if_true]
    rw [hmv]
    exact headerScan_cert_stable _ _ _ hv
  · simp [hc] at hl

/-- A prefix of lines with no LotNumber hit can be skipped. -/
theorem headerScan_lot_skip :
    ∀ (pre : List String), (∀ l ∈ pre, lotOfLine l = none) →
    ∀ (ls : List String) (c : String),
    (headerScan (pre ++ ls) c "").2 = (headerScan ls c "").2 := by
  intro pre
  induction pre with
  | nil => intro _ ls c; rfl
  | cons l pre ih =>
    intro hpre ls c
    rw [List.cons_append, headerScan_lot_miss l (pre ++ ls) c (hpre l (by simp))]
    exact ih (fun lp hlp => hpre lp (by simp [hlp])) ls c

/-- A prefix of lines with no CertificateNumber hit can be skipped. -/
theorem headerScan_cert_skip :
    ∀ (pre : List String), (∀ l ∈ pre, certOfLine l = none) →
    ∀ (ls : List String) (lot : String),
    (headerScan (pre ++ ls) "" lot).1 = (headerScan ls "" lot).1 := by
  intro pre
  induction pre with
  | nil => intro _ ls lot; rfl
  | cons l pre ih =>
    intro hpre ls lot
    rw [List.cons_append, headerScan_cert_miss l (pre ++ ls) lot (hpre l (by simp))]
    exact ih (fun lp hlp => hpre lp (by simp [hlp])) ls lot

/-- When no line has a LotNumber hit the accumulator stays empty. -/
theorem headerScan_lot_none (ls : List String)
    (hls : ∀ l ∈ ls, lotOfLine l = none) (c : String) :
    (headerScan ls c "").2 = "" := by
  have := headerScan_lot_skip ls hls [] c
  simpa using this

/-- When no line has a CertificateNumber hit the accumulator stays
empty. -/
theorem headerScan_cert_none (ls : List String)
    (hls : ∀ l ∈ ls, certOfLine l = none) (lot : String) :
    (headerScan ls "" lot).1 = "" := by
  have := headerScan_cert_skip ls hls [] lot
  simpa using this

/-- When no product matches, the whitelist scan yields nothing. -/
theorem firstProduct_none :
    ∀ (ps : List String) (rl : String),
    (∀ q ∈ ps, containsSub rl q = false) → firstProduct ps rl = none := by
  intro ps
  induction ps with
  | nil => intro rl _; rfl
  | cons p ps ih =>
    intro rl hps
    have h1 := hps p (by simp)
    simp only [firstProduct, h1, Bool.false_eq_true, if_false]
    exact ih rl (fun q hq => hps q (by simp [hq]))

/-- The first matching product, in declared order, wins the whitelist
scan. -/
theorem firstProduct_hit :
    ∀ (psA : List String) (p : String) (psB : List String) (rl : String),
    (∀ q ∈ psA, containsSub rl q = false) → containsSub rl p = true →
    firstProduct (psA ++ p :: psB) rl = some p := by
  intro psA
  induction psA with
  | nil =>
    intro p psB rl _ hp
    simp only [List.nil_append, firstProduct, hp, if_true]
  | cons q psA ih =>
    intro p psB rl hA hp
    have h1 := hA q (by simp)
    simp only [List.cons_append, firstProduct, h1, Bool.false_eq_true, if_false]
    exact ih p psB rl (fun q2 hq2 => hA q2 (by simp [hq2])) hp

/-- When no line starts with `sample :`, the fallback yields the empty
string. -/
theorem sampleFromLines_none :
    ∀ (ls : List String),
    (∀ l ∈ ls, isPrefixCh ("sample :").data (lowerS l).data = false) →
    sampleFromLines ls = "" := by
  intro ls
  induction ls with
  | nil => intro _; rfl
  | cons l ls ih =>
    intro hls
    have h1 := hls l (by simp)
    simp only [sampleFromLines, h1, Bool.false_eq_true, if_false]
    exact ih (fun lp hlp => hls lp (by simp [hlp]))

/-- The first line starting with `sample :` supplies the fallback
sample value. -/
theorem sampleFromLines_hit :
    ∀ (pre : List String) (l : String) (post : List String),
    (∀ lp ∈ pre, isPrefixCh ("sample :").data (lowerS lp).data = false) →
    isPrefixCh ("sample :").data (lowerS l).data = true →
    sampleFromLines (pre ++ l :: post) =
      trimS (String.mk (truncSampleCh (afterColonCh l.data))) := by
  intro pre
  induction pre with
  | nil =>
    intro l post _ hl
    simp only [List.nil_append, sampleFromLines, hl, if_true]
  | cons lp pre ih =>
    intro l post hpre hl
    have h1 := hpre lp (by simp)
    simp only [List.cons_append, sampleFromLines, h1, Bool.false_eq_true, if_false]
    exact ih l post (fun lq hlq => hpre lq (by simp [hlq])) hl

/-- Title-casing maps characters one for one. -/
theorem titleAux_length : ∀ (l : List Char) (b : Bool),
    (titleAux l b).length = l.length := by
  intro l
  induction l with
  | nil => intro b; rfl
  | cons c cs ih =>
    intro b
    simp only [titleAux, List.length_cons, ih]

/-- Title-casing a non-empty string gives a non-empty string. -/
theorem titleCaseS_ne_empty {p : String} (h : p ≠ "") : titleCaseS p ≠ "" := by
  intro he
  apply h
  have h1 : titleAux p.data false = [] := congrArg String.data he
  have h2 : p.data.length = 0 := by
    rw [← titleAux_length p.data false, h1]; rfl
  have h3 : p.data = [] := List.length_eq_zero.mp h2
  cases p with
  | mk d => simp at h3; simp [h3]

/-! ## Claim theorems: header extractor -/

/-- C6: single top-to-bottom scan with first-match-wins for LotNumber
and CertificateNumber.  The first line containing `lot number` together
with a digits-optionally-slash-digits match sets LotNumber (lines with
the phrase but no match do not count, and later matching lines are
ignored); symmetrically for CertificateNumber; a field with no hit on any
line is the empty string, never an error — the extractor is a total
function; and if additionally no product matches and no `sample :` line
exists, Sample is likewise the empty string. -/
theorem claim6_header_first_match (products : List String) (raw : String) :
    (∀ (pre : List String) (l : String) (post : List String) (v : String),
       splitLinesS raw = pre ++ l :: post →
       (∀ lp ∈ pre, lotOfLine lp = none) → lotOfLine l = some v →
       (extract_header_fields products raw).LotNumber = v)
  ∧ (∀ (pre : List String) (l : String) (post : List String) (v : String),
       splitLinesS raw = pre ++ l :: post →
       (∀ lp ∈ pre, certOfLine lp = none) → certOfLine l = some v →
       (extract_header_fields products raw).CertificateNumber = v)
  ∧ ((∀ l ∈ splitLinesS raw, lotOfLine l = none) →
       (extract_header_fields products raw).LotNumber = "")
  ∧ ((∀ l ∈ splitLinesS raw, certOfLine l = none) →
       (extract_header_fields products raw).CertificateNumber = "")
  ∧ ((∀ p ∈ products, containsSub (lowerS raw) p = false) →
     (∀ l ∈ splitLinesS raw, isPrefixCh ("sample :").data (lowerS l).data = false) →
       (extract_header_fields products raw).Sample = "") := by
  refine ⟨?_, ?_, ?_, ?_, ?_⟩
  · intro pre l post v hsplit hpre hl
    show (headerScan (splitLinesS raw) ("") ("")).2 = v
    rw [hsplit, headerScan_lot_skip pre hpre (l :: post) ("")]
    exact headerScan_lot_hit l post ("") v hl
  · intro pre l post v hsplit hpre hl
    show (headerScan (splitLinesS raw) ("") ("")).1 = v
    rw [hsplit, headerScan_cert_skip pre hpre (l :: post) ("")]
    exact headerScan_cert_hit l post ("") v hl
  · intro hall
    show (headerScan (splitLinesS raw) ("") ("")).2 = ""
    exact headerScan_lot_none _ hall ("")
  · intro hall
    show (headerScan (splitLinesS raw) ("") ("")).1 = ""
    exact headerScan_cert_none _ hall ("")
  · intro hprod hlines
    have h1 : firstProduct products (lowerS raw) = none :=
      firstProduct_none products _ hprod
    have h2 : sampleFromLines (splitLinesS raw) = "" :=
      sampleFromLines_none _ hlines
    simp [extract_header_fields, h1, h2]

/-- C6 witness: with two `lot number` lines the first one wins, and the
certificate id is recapitalised from the first certificate line. -/
theorem claim6_header_first_match_witness :
    (extract_header_fields []
      ("Lot Number: 12345\nLot Number: 99999\nCertificate Number: DOKKI-2024-001")).LotNumber = "12345"
  ∧ (extract_header_fields []
      ("Lot Number: 12345\nLot Number: 99999\nCertificate Number: DOKKI-2024-001")).CertificateNumber = "Dokki-2024-001" :=
  ⟨(claim6_header_first_match []
      ("Lot Number: 12345\nLot Number: 99999\nCertificate Number: DOKKI-2024-001")).1
      [] ("Lot Number: 12345") ["Lot Number: 99999", "Certificate Number: DOKKI-2024-001"]
      "12345" (by decide) (by decide) (by decide),
   (claim6_header_first_match []
      ("Lot Number: 12345\nLot Number: 99999\nCertificate Number: DOKKI-2024-001")).2.1
      ["Lot Number: 12345", "Lot Number: 99999"] ("Certificate Number: DOKKI-2024-001") []
      "Dokki-2024-001" (by decide) (by decide) (by decide)⟩

/-- C7: two-tier Sample resolution.  Tier 1: the first lexicon product
name (in declared order) occurring case-insensitively anywhere in the
whole raw text wins and is title-cased (the hypothesis that the name is
non-empty reflects that lexicon entries are names; an empty entry would
fall through to tier 2).  Tier 2: with no product match, the first line
starting with `sample :` supplies the text after the colon, truncated at
the first `fax`/`phone`/`id`/digit and trimmed.  Neither tier: empty
string. -/
theorem claim7_sample_two_tier (products : List String) (raw : String) :
    (∀ (psA : List String) (p : String) (psB : List String),
       products = psA ++ p :: psB → p ≠ "" →
       (∀ q ∈ psA, containsSub (lowerS raw) q = false) →
       containsSub (lowerS raw) p = true →
       (extract_header_fields products raw).Sample = titleCaseS p)
  ∧ ((∀ q ∈ products, containsSub (lowerS raw) q = false) →
     ∀ (pre : List String) (l : String) (post : List String),
       splitLinesS raw = pre ++ l :: post →
       (∀ lp ∈ pre, isPrefixCh ("sample :").data (lowerS lp).data = false) →
       isPrefixCh ("sample :").data (lowerS l).data = true →
       (extract_header_fields products raw).Sample =
         trimS (String.mk (truncSampleCh (afterColonCh l.data))))
  ∧ ((∀ q ∈ products, containsSub (lowerS raw) q = false) →
     (∀ l ∈ splitLinesS raw, isPrefixCh ("sample :").data (lowerS l).data = false) →
       (extract_header_fields products raw).Sample = "") := by
  refine ⟨?_, ?_, ?_⟩
  · intro psA p psB hps hpne hA hp
    have h1 : firstProduct products (lowerS raw) = some p := by
      rw [hps]
      exact firstProduct_hit psA p psB _ hA hp
    have h2 : (titleCaseS p == "") = false :=
      beq_eq_false_iff_ne.mpr (titleCaseS_ne_empty hpne)
    simp [extract_header_fields, h1, h2]
  · intro hprod pre l post hsplit hpre hl
    have h1 : firstProduct products (lowerS raw) = none :=
      firstProduct_none products _ hprod
    have h2 : sampleFromLines (splitLinesS raw) =
        trimS (String.mk (truncSampleCh (afterColonCh l.data))) := by
      rw [hsplit]
      exact sampleFromLines_hit pre l post hpre hl
    simp [extract_header_fields, h1, h2]
  · intro hprod hlines
    have h1 : firstProduct products (lowerS raw) = none :=
      firstProduct_none products _ hprod
    have h2 : sampleFromLines (splitLinesS raw) = "" :=
      sampleFromLines_none _ hlines
    simp [extract_header_fields, h1, h2]

/-- C7 witness: tier 1 fires on a whole-text case-insensitive product
match and title-cases the stored name; and tier 2 fires on a concrete
`Sample :` line, truncating before `Fax`. -/
theorem claim7_sample_two_tier_witness :
    ((extract_header_fields ["olive oil"] ("Premium OLIVE OIL extra")).Sample =
      titleCaseS ("olive oil")
  ∧ titleCaseS ("olive oil") = "Olive Oil")
  ∧ (extract_header_fields ["olive oil"] ("Sample : Fresh Basil Fax 123")).Sample =
      trimS (String.mk (truncSampleCh (afterColonCh ("Sample : Fresh Basil Fax 123").data)))
  ∧ trimS (String.mk (truncSampleCh (afterColonCh ("Sample : Fresh Basil Fax 123").data))) =
      "Fresh Basil" :=
  ⟨⟨(claim7_sample_two_tier ["olive oil"] ("Premium OLIVE OIL extra")).1
      [] ("olive oil") [] rfl (by decide) (by decide) (by decide),
    by decide⟩,
   (claim7_sample_two_tier ["olive oil"] ("Sample : Fresh Basil Fax 123")).2.1
      (by decide) [] ("Sample : Fresh Basil Fax 123") [] (by decide) (by decide) (by decide),
   by decide⟩

/-! ## Claim theorems: reconciler, results CSV, reference table -/

/-- C5: reconciliation.  With an empty match set (no Reference Table
record whose external id is a maximal digit run of the raw text) the step
fails with `LOT NOT FOUND`, the document is routed to the error area, the
ledger is unchanged and the annotator is never invoked; with a non-empty
match set the supplier comes from the first matching record in build
order and the display text joins the first-occurrence-distinct internal
ids of all matches. -/
theorem claim5_reconciler
    (refT : List RefRecord) (products pesticides : List String)
    (led : List (String × String)) (file h raw : String)
    (annotateOk moveOk : Bool)
    (hdup : already_done led h = false) :
    (refT.filter (fun r => (digitRunsS raw).contains r.external) = [] →
       reconcile refT raw = Except.error ("LOT NOT FOUND")
     ∧ (process_file refT products pesticides led file h (some raw) annotateOk moveOk).area = Area.error
     ∧ (process_file refT products pesticides led file h (some raw) annotateOk moveOk).ledger = led
     ∧ (process_file refT products pesticides led file h (some raw) annotateOk moveOk).annotInput = none)
  ∧ (∀ (m0 : RefRecord) (rest : List RefRecord),
       refT.filter (fun r => (digitRunsS raw).contains r.external) = m0 :: rest →
       reconcile refT raw = Except.ok (m0.supplier,
         joinSep (" / ") (uniqFirst ((m0 :: rest).map (fun r => r.internal))))
     ∧ (process_file refT products pesticides led file h (some raw) annotateOk moveOk).annotInput =
         some (m0.supplier,
           joinSep (" / ") (uniqFirst ((m0 :: rest).map (fun r => r.internal))))) := by
  constructor
  · intro hempty
    have hrec : reconcile refT raw = Except.error ("LOT NOT FOUND") := by
      simp only [reconcile]
      rw [hempty]
    exact ⟨hrec, by simp [process_file, hdup, hrec],
      by simp [process_file, hdup, hrec], by simp [process_file, hdup, hrec]⟩
  · intro m0 rest hfil
    have hrec : reconcile refT raw = Except.ok (m0.supplier,
        joinSep (" / ") (uniqFirst ((m0 :: rest).map (fun r => r.internal)))) := by
      simp only [reconcile]
      rw [hfil]
    refine ⟨hrec, ?_⟩
    cases annotateOk <;> cases moveOk <;> simp [process_file, hdup, hrec]

/-- C5 witness: one matching record resolves its supplier and internal
lot display text. -/
theorem claim5_reconciler_witness :
    (reconcile [⟨"778", "INT-99", "Acme Farms"⟩] ("lot 778 text") =
      Except.ok ("Acme Farms",
        joinSep (" / ") (uniqFirst ((⟨"778", "INT-99", "Acme Farms"⟩ ::
          ([] : List RefRecord)).map (fun r => r.internal))))
  ∧ (process_file [⟨"778", "INT-99", "Acme Farms"⟩] [] [] [] "a.pdf" "h1"
      (some ("lot 778 text")) true true).annotInput =
      some ("Acme Farms",
        joinSep (" / ") (uniqFirst ((⟨"778", "INT-99", "Acme Farms"⟩ ::
          ([] : List RefRecord)).map (fun r => r.internal)))))
  ∧ joinSep (" / ") (uniqFirst ((⟨"778", "INT-99", "Acme Farms"⟩ ::
      ([] : List RefRecord)).map (fun r => r.internal))) = "INT-99" :=
  ⟨(claim5_reconciler [⟨"778", "INT-99", "Acme Farms"⟩] [] [] [] "a.pdf" "h1"
      ("lot 778 text") true true (by decide)).2
      ⟨"778", "INT-99", "Acme Farms"⟩ [] (by decide),
   by decide⟩

/-- The results-CSV outcome of a run that gets past the duplicate check
and OCR, independent of everything downstream of extraction. -/
theorem process_file_csv
    (refT : List RefRecord) (products pesticides : List String)
    (led : List (String × String)) (file h raw : String)
    (annotateOk moveOk : Bool) :
    (process_file refT products pesticides led file h (some raw) annotateOk moveOk).csv =
    if already_done led h then none
    else if (extract_results_to_rows pesticides (extract_header_fields products raw) raw).isEmpty
      then none
    else some (replaceAllS file (".pdf") ("_RESULTS.csv")) := by
  by_cases hd : already_done led h
  · simp [process_file, hd]
  · cases hrec : reconcile refT raw <;> cases annotateOk <;> cases moveOk <;>
      simp [process_file, hd, hrec]

/-- C8 (amended): a results CSV is produced exactly when processing ran
(hash not yet in the ledger, OCR succeeded) and extraction produced at
least one row.  It is then always named by replacing every occurrence of
the lower-case `.pdf` in the file name with `_RESULTS.csv` (a file
discovered with an upper-case extension keeps its unmodified name), and
it is written at extraction time — the outcome is independent of the
reference table, annotation and move results, so the CSV also exists when
the document itself ends in the error area. -/
theorem claim8_results_csv
    (refT : List RefRecord) (products pesticides : List String)
    (led : List (String × String)) (file h : String)
    (ocr : Option String) (annotateOk moveOk : Bool)
    (hdisc : discovered file = true) :
    ((process_file refT products pesticides led file h ocr annotateOk moveOk).csv.isSome = true ↔
       (already_done led h = false ∧ ∃ raw, ocr = some raw ∧
         extract_results_to_rows pesticides (extract_header_fields products raw) raw ≠ []))
  ∧ (∀ raw, ocr = some raw → already_done led h = false →
       extract_results_to_rows pesticides (extract_header_fields products raw) raw ≠ [] →
       (process_file refT products pesticides led file h ocr annotateOk moveOk).csv =
         some (replaceAllS file (".pdf") ("_RESULTS.csv")))
  ∧ (∀ (refT2 : List RefRecord) (annotateOk2 moveOk2 : Bool),
       (process_file refT2 products pesticides led file h ocr annotateOk2 moveOk2).csv =
       (process_file refT products pesticides led file h ocr annotateOk moveOk).csv) := by
  refine ⟨?_, ?_, ?_⟩
  · cases ocr with
    | none =>
      by_cases hd : already_done led h <;> simp [process_file, hd]
    | some raw =>
      rw [process_file_csv]
      by_cases hd : already_done led h
      · simp [hd]
      · by_cases hrows :
          (extract_results_to_rows pesticides (extract_header_fields products raw) raw).isEmpty
        · simp [hd, hrows, List.isEmpty_iff.mp hrows]
        · have : extract_results_to_rows pesticides (extract_header_fields products raw) raw ≠ [] := by
            intro he
            rw [he] at hrows
            exact hrows rfl
          simp [hd, hrows, this]
  · intro raw hoc hd hrows
    subst hoc
    rw [process_file_csv]
    have hre : (extract_results_to_rows pesticides (extract_header_fields products raw) raw).isEmpty = false := by
      cases he : (extract_results_to_rows pesticides (extract_header_fields products raw) raw).isEmpty with
      | false => rfl
      | true => exact absurd (List.isEmpty_iff.mp he) hrows
    simp [hd, hre]
  · intro refT2 annotateOk2 moveOk2
    cases ocr with
    | none =>
      by_cases hd : already_done led h <;> simp [process_file, hd]
    | some raw =>
      rw [process_file_csv, process_file_csv]

/-- C8 witness: a run producing one row writes the CSV named by the
lower-case extension replacement. -/
theorem claim8_results_csv_witness :
    (process_file [] [] ["chlorpyrifos"] [] "scan.pdf" "h1"
      (some ("results of analysis\nchlorpyrifos 0.50")) true true).csv =
      some (replaceAllS ("scan.pdf") (".pdf") ("_RESULTS.csv"))
  ∧ replaceAllS ("scan.pdf") (".pdf") ("_RESULTS.csv") = "scan_RESULTS.csv" :=
  ⟨(claim8_results_csv [] [] ["chlorpyrifos"] [] "scan.pdf" "h1"
      (some ("results of analysis\nchlorpyrifos 0.50")) true true (by decide)).2.1
      ("results of analysis\nchlorpyrifos 0.50") rfl (by decide) (by decide),
   by decide⟩

/-- C8 counterexample: the claim as stated is false twice over.  The file
`scan.PDF` passes case-insensitive discovery and extraction yields a row,
so a CSV is produced — but its name is the unchanged `scan.PDF` (the
source replaces occurrences of the lower-case literal `.pdf` only, so
nothing is replaced), and the document itself ends in the error area
(`LOT NOT FOUND` with an empty reference table), so the CSV does not
accompany a done document. -/
theorem claim8_counterexample :
    discovered ("scan.PDF") = true
  ∧ extract_results_to_rows ["chlorpyrifos"]
      (extract_header_fields [] ("results of analysis\nchlorpyrifos 0.50"))
      ("results of analysis\nchlorpyrifos 0.50") ≠ []
  ∧ (process_file [] [] ["chlorpyrifos"] [] "scan.PDF" "h1"
      (some ("results of analysis\nchlorpyrifos 0.50")) true true).csv = some ("scan.PDF")
  ∧ (process_file [] [] ["chlorpyrifos"] [] "scan.PDF" "h1"
      (some ("results of analysis\nchlorpyrifos 0.50")) true true).area = Area.error := by
  exact ⟨by decide, by decide, by decide, by decide⟩

/-- C9 (amended): building the Reference Table explodes each row's
primary cell — after first deleting every occurrence of the literal
`.0` from its string form — into one record per remaining maximal digit
run, all sharing that row's internal lot id and supplier, rows in build
order; in particular a cell `12345/67890` yields exactly the two records
with external ids `12345` and `67890`. -/
theorem claim9_explode (rowsA rowsB : List RefRow) (c i s : String) :
    buildRefTable (rowsA ++ ⟨c, i, s⟩ :: rowsB) =
      buildRefTable rowsA ++ explodeRow ⟨c, i, s⟩ ++ buildRefTable rowsB
  ∧ explodeRow ⟨c, i, s⟩ =
      (digitRunsS (replaceAllS c (".0") (""))).map (fun d => ⟨trimS d, i, s⟩)
  ∧ buildRefTable [⟨"12345/67890", i, s⟩] = [⟨"12345", i, s⟩, ⟨"67890", i, s⟩] := by
  refine ⟨?_, rfl, rfl⟩
  simp [buildRefTable]

/-- C9 counterexample: the claim as stated (one record per digit
substring of the cell) is false.  The cell `7.08` has the maximal digit
runs `7` and `08`, but the build first deletes the literal `.0`, so a
single record with external id `78` is created. -/
theorem claim9_counterexample :
    digitRunsS ("7.08") = ["7", "08"]
  ∧ buildRefTable [⟨"7.08", "I", "S"⟩] = [⟨"78", "I", "S"⟩] :=
  ⟨by decide, by decide⟩

end CertAgent
